import Mathlib

/-!
Shallow embedding of the supaDraw drawing core (src/tools.py, src/canvas.py).

Coordinates are modelled as rationals (the Python source uses IEEE floats;
all claims under verification concern exact geometric and list-structural
facts, so exact arithmetic is the intended reading).  Qt value types are
modelled structurally: `QPointF` as `Point`, `QColor` as `Color`, `QRectF`
as `QRect`.  Stateful methods of `DrawingCanvas` become pure state-passing
functions on a `Canvas` record; `self.page` (the active page
`self.pages[self.current_page_idx]`) is modelled as the single `page` field,
since every operation under study touches only the active page.
-/

namespace SupaDraw

/-- Model of `QPointF`: a 2D coordinate (src/canvas.py uses `QPointF` throughout). -/
structure Point where
  x : ℚ
  y : ℚ
  deriving DecidableEq, Repr

/-- Model of the `ToolType` enumeration (src/tools.py lines 14-24). -/
inductive ToolType where
  | PEN
  | HIGHLIGHTER
  | CHISEL
  | ERASER
  | LINE
  | RECTANGLE
  | CIRCLE
  | ARROW
  | CURSOR
  deriving DecidableEq, Repr

/-- Model of the `BackgroundType` enumeration (src/tools.py lines 27-34). -/
inductive BackgroundType where
  | NONE
  | WHITE
  | GRID
  | LINED
  | DOTTED
  | BLACKBOARD
  deriving DecidableEq, Repr

/-- Model of `QColor`: an RGBA color value. -/
structure Color where
  r : ℕ
  g : ℕ
  b : ℕ
  a : ℕ := 255
  deriving DecidableEq, Repr

/-- Model of the `Stroke` dataclass (src/tools.py lines 37-48): a freehand point
sequence or a shape with `start_point`/`end_point` set. -/
structure Stroke where
  points : List Point := []
  color : Color := ⟨0, 0, 0, 255⟩
  width : ℚ := 3
  tool : ToolType := .PEN
  opacity : ℚ := 1
  start_point : Option Point := none
  end_point : Option Point := none
  deriving DecidableEq, Repr

/-- Model of the `ImageStamp` dataclass (src/tools.py lines 51-59). -/
structure ImageStamp where
  path : String := ""
  x : ℚ := 0
  y : ℚ := 0
  width : ℚ := 200
  height : ℚ := 200
  rotation : ℚ := 0
  deriving DecidableEq, Repr

/-- Model of the `Page` dataclass (src/tools.py lines 62-69). -/
structure Page where
  strokes : List Stroke := []
  images : List ImageStamp := []
  background : BackgroundType := .NONE
  undo_stack : List (List Stroke) := []
  redo_stack : List (List Stroke) := []
  deriving DecidableEq, Repr

/-- A freshly constructed `Page()`: empty strokes, empty history. -/
def freshPage : Page := {}

/-- Squared Euclidean distance between two points.  The source computes
`math.hypot (dx) (dy)` and compares it with a nonnegative threshold `t`;
for `0 ≤ t` that comparison is equivalent to comparing `sqDist` with
`t ^ 2`, which keeps the predicate decidable over `ℚ`.  The theorem
`erase_removal_characterization` proves the equivalence with the genuine
Euclidean (square-root) distance. -/
def sqDist (p q : Point) : ℚ :=
  (p.x - q.x) ^ 2 + (p.y - q.y) ^ 2

/-- Midpoint of a shape stroke's endpoints (`mid` in
`DrawingCanvas._erase_at`, src/canvas.py lines 280-283). -/
def shapeMid (a b : Point) : Point :=
  ⟨(a.x + b.x) / 2, (a.y + b.y) / 2⟩

/-- The per-stroke hit predicate of `DrawingCanvas._erase_at`
(src/canvas.py lines 277-296): a stroke is *hit* (removed) when
- it is a shape (`start_point` and `end_point` both set; `QPointF`
  instances are truthy in PyQt, so the Python test is a None-ness test)
  and the distance from the erase point to the endpoint midpoint is
  ≤ `2 * eraser_radius` (the source keeps strokes with `dist > 2r`);
- it is a freehand stroke and some stored point lies at distance
  strictly less than `eraser_radius` from the erase point.
Distances are compared in squared form, faithful for radius ≥ 0. -/
def strokeHit (eraser_radius : ℚ) (pos : Point) (s : Stroke) : Bool :=
  match s.start_point, s.end_point with
  | some a, some b =>
      decide (sqDist pos (shapeMid a b) ≤ (eraser_radius * 2) ^ 2)
  | _, _ =>
      s.points.any (fun pt => decide (sqDist pos pt < eraser_radius ^ 2))

/-- Model of `DrawingCanvas._erase_at` (src/canvas.py lines 271-301), with the
eraser radius (`self.current_width`) passed explicitly.  Surviving
strokes are collected in order; only if at least one stroke was removed
is the pre-erase list snapshotted onto `undo_stack` and the stroke list
replaced. -/
def eraseAt (eraser_radius : ℚ) (pos : Point) (page : Page) : Page :=
  let remaining := page.strokes.filter (fun s => ! strokeHit eraser_radius pos s)
  if remaining.length < page.strokes.length then
    { page with
        undo_stack := page.undo_stack ++ [page.strokes]
        strokes := remaining }
  else
    page

/-- Model of `DrawingCanvas.undo` (src/canvas.py lines 130-136): if the page has
strokes, push a copy of the stroke list onto `undo_stack` and drop the
last stroke (`page.strokes[:-1]`); otherwise do nothing. -/
def undo (page : Page) : Page :=
  if page.strokes = [] then
    page
  else
    { page with
        undo_stack := page.undo_stack ++ [page.strokes]
        strokes := page.strokes.dropLast }

/-- Model of `DrawingCanvas.redo` (src/canvas.py lines 138-146): if `undo_stack`
is nonempty, pop its last snapshot (the pop happens unconditionally);
the stroke list is replaced by the popped snapshot only when the
snapshot is strictly longer than the current stroke list. -/
def redo (page : Page) : Page :=
  match page.undo_stack.getLast? with
  | none => page
  | some last_state =>
      if page.strokes.length < last_state.length then
        { page with
            undo_stack := page.undo_stack.dropLast
            strokes := last_state }
      else
        { page with undo_stack := page.undo_stack.dropLast }

/-- Model of `DrawingCanvas.clear_page` (src/canvas.py lines 148-154). -/
def clear_page (page : Page) : Page :=
  if page.strokes = [] then
    page
  else
    { page with
        undo_stack := page.undo_stack ++ [page.strokes]
        strokes := [] }

/-- Committing a finished stroke onto the page: the shared tail of both
branches of `DrawingCanvas.mouseReleaseEvent` (src/canvas.py lines
254-255 and 263-264): append the stroke, clear `redo_stack`. -/
def commit (s : Stroke) (page : Page) : Page :=
  { page with
      strokes := page.strokes ++ [s]
      redo_stack := [] }

/-- The shape-tool test `self.current_tool in (ToolType.LINE,
ToolType.RECTANGLE, ToolType.CIRCLE, ToolType.ARROW)` used by the mouse
handlers (src/canvas.py lines 180-181, 211-212, 243-244). -/
def isShapeTool (t : ToolType) : Bool :=
  match t with
  | .LINE | .RECTANGLE | .CIRCLE | .ARROW => true
  | _ => false

/-- Constant `DrawingCanvas.SMOOTHING_FACTOR` (src/canvas.py line 37). -/
def SMOOTHING_FACTOR : ℚ := 3 / 10

/-- Constant `DrawingCanvas.MIN_SHAPE_SIZE` (src/canvas.py line 38).  The constant
is declared in the source but referenced nowhere else in the repository. -/
def MIN_SHAPE_SIZE : ℚ := 10

/-- The smoothed point appended by `DrawingCanvas.mouseMoveEvent`
(src/canvas.py lines 224-228): `last + (pos - last) * (1 - SMOOTHING_FACTOR)`
componentwise. -/
def smoothPoint (last pos : Point) : Point :=
  ⟨last.x + (pos.x - last.x) * (1 - SMOOTHING_FACTOR),
   last.y + (pos.y - last.y) * (1 - SMOOTHING_FACTOR)⟩

/-- The mutable drawing state of `DrawingCanvas.__init__`
(src/canvas.py lines 40-65) needed by the pointer handlers.  `page` is
the active page `self.pages[self.current_page_idx]`. -/
structure Canvas where
  current_tool : ToolType := .PEN
  current_color : Color := ⟨26, 26, 46, 255⟩
  current_width : ℚ := 3
  current_opacity : ℚ := 1
  page : Page := {}
  drawing : Bool := false
  current_stroke : Option Stroke := none
  shape_start : Option Point := none
  shape_preview_end : Option Point := none
  deriving DecidableEq, Repr

/-- Model of `DrawingCanvas.mousePressEvent` (src/canvas.py lines 170-202) for a
left-button press at `pos` (events with any other button return at once
and are not modelled). -/
def mousePressEvent (c : Canvas) (pos : Point) : Canvas :=
  if c.current_tool = .CURSOR then
    c
  else if isShapeTool c.current_tool then
    { c with
        shape_start := some pos
        shape_preview_end := some pos
        drawing := true }
  else if c.current_tool = .ERASER then
    { c with
        page := eraseAt c.current_width pos c.page
        drawing := true }
  else
    { c with
        drawing := true
        current_stroke := some
          { points := [pos]
            color := c.current_color
            width := c.current_width
            tool := c.current_tool
            opacity := c.current_opacity } }

/-- Model of `DrawingCanvas.mouseMoveEvent` (src/canvas.py lines 204-230).  In the
freehand branch the source reads `points[-1]`; a press always seeds the
stroke with one point, so the list is never empty there (an empty list
would raise `IndexError` in Python; that unreachable case is modelled as
a no-op). -/
def mouseMoveEvent (c : Canvas) (pos : Point) : Canvas :=
  if c.drawing = false then
    c
  else if isShapeTool c.current_tool then
    { c with shape_preview_end := some pos }
  else if c.current_tool = .ERASER then
    { c with page := eraseAt c.current_width pos c.page }
  else
    match c.current_stroke with
    | none => c
    | some st =>
        match st.points.getLast? with
        | none => c
        | some last =>
            let st2 : Stroke := { st with points := st.points ++ [smoothPoint last pos] }
            { c with current_stroke := some st2 }

/-- Model of `DrawingCanvas.mouseReleaseEvent` (src/canvas.py lines 232-267) for a
left-button release.  The shape branch commits whenever both
`shape_start` and `shape_preview_end` are set (PyQt `QPointF` values are
truthy, so the Python test is a None-ness test), then clears them and
returns without touching `current_stroke`; the freehand branch commits
only a stroke with more than one point and always drops
`current_stroke`. -/
def mouseReleaseEvent (c : Canvas) : Canvas :=
  if c.drawing = false then
    c
  else
    let c1 := { c with drawing := false }
    if isShapeTool c1.current_tool then
      let c2 :=
        match c1.shape_start, c1.shape_preview_end with
        | some s0, some e0 =>
            let stroke : Stroke :=
              { points := []
                color := c1.current_color
                width := c1.current_width
                tool := c1.current_tool
                opacity := c1.current_opacity
                start_point := some s0
                end_point := some e0 }
            { c1 with page := commit stroke c1.page }
        | _, _ => c1
      { c2 with shape_start := none, shape_preview_end := none }
    else
      match c1.current_stroke with
      | some st =>
          if 1 < st.points.length then
            { c1 with page := commit st c1.page, current_stroke := none }
          else
            { c1 with current_stroke := none }
      | none => { c1 with current_stroke := none }

/-- Model of `QRectF(topLeft, bottomRight)`: position is the first corner, size is
the (possibly negative) difference of the corners. -/
structure QRect where
  x : ℚ
  y : ℚ
  w : ℚ
  h : ℚ
  deriving DecidableEq, Repr

/-- The two-point `QRectF` constructor used in
`DrawingCanvas._paint_stroke` (src/canvas.py lines 372, 375). -/
def mkQRectF (s e : Point) : QRect :=
  ⟨s.x, s.y, e.x - s.x, e.y - s.y⟩

/-- Model of `QRectF.normalized()`: swap left/right when the width is negative and
top/bottom when the height is negative, yielding a rectangle with
nonnegative width and height. -/
def QRect.normalized (r : QRect) : QRect :=
  let xw : ℚ × ℚ := if r.w < 0 then (r.x + r.w, -r.w) else (r.x, r.w)
  let yh : ℚ × ℚ := if r.h < 0 then (r.y + r.h, -r.h) else (r.y, r.h)
  ⟨xw.1, yh.1, xw.2, yh.2⟩

/-- The geometric painter call issued for a shape stroke. -/
inductive ShapeCmd where
  | drawLine (a b : Point)
  | drawRect (r : QRect)
  | drawEllipse (r : QRect)
  | drawArrowCmd (a b : Point) (penWidth : ℚ)
  deriving DecidableEq, Repr

/-- The shape branch of `DrawingCanvas._paint_stroke` (src/canvas.py
lines 362-380): with both endpoints set, dispatch on the tool —
`drawLine(s, e)`, `drawRect(QRectF(s, e).normalized())`,
`drawEllipse(QRectF(s, e).normalized())`, or `_draw_arrow` with the pen
(whose width is the stroke width); any other tool paints nothing in that
branch.  Freehand strokes (endpoints unset) take the path-drawing branch
instead and yield no shape command. -/
def paintShapeCmd (st : Stroke) : Option ShapeCmd :=
  match st.start_point, st.end_point with
  | some s, some e =>
      match st.tool with
      | .LINE => some (.drawLine s e)
      | .RECTANGLE => some (.drawRect (mkQRectF s e).normalized)
      | .CIRCLE => some (.drawEllipse (mkQRectF s e).normalized)
      | .ARROW => some (.drawArrowCmd s e st.width)
      | _ => none
  | _, _ => none

/-- A point with real coordinates, for the trigonometric arrowhead
geometry. -/
structure RPoint where
  x : ℝ
  y : ℝ

/-- Model of `math.atan2 y x`, via the argument of the complex number `x + y*i`
(same convention: angle in `(-π, π]`, `atan2 0 x = 0` for `x > 0`). -/
noncomputable def atan2 (y x : ℝ) : ℝ := Complex.arg ⟨x, y⟩

/-- Model of `math.radians`: degrees to radians. -/
noncomputable def radians (d : ℝ) : ℝ := d * Real.pi / 180

/-- The geometry produced by `DrawingCanvas._draw_arrow`: the straight
segment plus the two arrowhead back points (the filled triangle is
`[end, back1, back2]`). -/
structure ArrowRender where
  lineA : Point
  lineB : Point
  headLen : ℝ
  back1 : RPoint
  back2 : RPoint

/-- Model of `DrawingCanvas._draw_arrow` (src/canvas.py lines 441-457): draw the
segment, compute the line angle with `atan2`, the head length
`max(15, width * 4)`, and the two back points at angles `angle ± 150°`
and distance `headLen` from the end point. -/
noncomputable def draw_arrow (s e : Point) (penWidth : ℚ) : ArrowRender :=
  let angle := atan2 ((e.y : ℝ) - (s.y : ℝ)) ((e.x : ℝ) - (s.x : ℝ))
  let arrow_len : ℝ := max 15 ((penWidth : ℝ) * 4)
  let a1 := angle + radians 150
  let a2 := angle - radians 150
  { lineA := s
    lineB := e
    headLen := arrow_len
    back1 := ⟨(e.x : ℝ) + arrow_len * Real.cos a1, (e.y : ℝ) + arrow_len * Real.sin a1⟩
    back2 := ⟨(e.x : ℝ) + arrow_len * Real.cos a2, (e.y : ℝ) + arrow_len * Real.sin a2⟩ }

/-- Euclidean distance between two rational points, as a real number
(what `math.hypot` computes in `_erase_at`). -/
noncomputable def rdist (p q : Point) : ℝ :=
  Real.sqrt (((p.x - q.x : ℚ) : ℝ) ^ 2 + ((p.y - q.y : ℚ) : ℝ) ^ 2)

/-- Euclidean distance between two real points. -/
noncomputable def rdistR (p q : RPoint) : ℝ :=
  Real.sqrt ((p.x - q.x) ^ 2 + (p.y - q.y) ^ 2)

/-- The page-level operations reachable from the UI: committing a
finished freehand stroke or shape (both append to `strokes` and clear
`redo_stack`, src/canvas.py lines 254-255 / 263-264), undo, redo, an
erase query, and clear-page. -/
inductive PageOp where
  | commitFreehand (s : Stroke)
  | commitShape (s : Stroke)
  | undoOp
  | redoOp
  | eraseOp (eraser_radius : ℚ) (pos : Point)
  | clearOp
  deriving Repr

/-- Apply one page operation. -/
def applyOp (page : Page) (op : PageOp) : Page :=
  match op with
  | .commitFreehand s => commit s page
  | .commitShape s => commit s page
  | .undoOp => undo page
  | .redoOp => redo page
  | .eraseOp r pos => eraseAt r pos page
  | .clearOp => clear_page page

/-- Apply a sequence of page operations in order. -/
def applyOps (page : Page) (ops : List PageOp) : Page :=
  ops.foldl applyOp page

/-- Concrete freehand stroke used by witnesses. -/
def strokeOne : Stroke := { points := [⟨0, 0⟩, ⟨1, 1⟩] }

/-- Concrete freehand stroke used by witnesses. -/
def strokeTwo : Stroke := { points := [⟨2, 2⟩, ⟨3, 3⟩] }

/-- Concrete page with two committed strokes. -/
def pgTwo : Page := { strokes := [strokeOne, strokeTwo] }

/-- Concrete freehand stroke far from the origin. -/
def farStroke : Stroke := { points := [⟨100, 100⟩] }

/-- Concrete page whose only stroke is out of eraser range at the origin. -/
def pgFar : Page := { strokes := [farStroke] }

/-- Concrete freehand stroke through the origin. -/
def sA : Stroke := { points := [⟨0, 0⟩, ⟨1, 0⟩] }

/-- Concrete page whose only stroke passes through the origin. -/
def pgA : Page := { strokes := [sA] }

/-- Concrete one-point in-progress stroke, as seeded by a pen press. -/
def stW : Stroke := { points := [⟨0, 0⟩] }

/-- Concrete canvas mid-freehand-drag with the pen tool. -/
def cW : Canvas := { current_tool := .PEN, drawing := true, current_stroke := some stW }

/-- Concrete idle canvas with the line tool selected. -/
def cShape : Canvas := { current_tool := .LINE }

/-- Concrete idle canvas with the pen tool selected. -/
def cPen : Canvas := { current_tool := .PEN }

-- C2 attempt
/-- Claim C2: starting from a fresh page, commit stroke A, undo, commit
stroke B, then redo — the stroke list is still exactly `[B]`; the
intervening commit makes the redo a no-op on the stroke list (the popped
snapshot `[A]` is not longer than `[B]`, so it is discarded). -/
theorem intervening_commit_makes_redo_noop (A B : Stroke) :
    (redo (commit B (undo (commit A freshPage)))).strokes = [B] := rfl

-- C6 helpers
/-- Helper: one undo on a page with at least one stroke pushes the
current stroke list onto the undo history and drops the last stroke. -/
theorem undo_step (pg : Page) (h : pg.strokes ≠ []) :
    undo pg = { pg with undo_stack := pg.undo_stack ++ [pg.strokes],
                        strokes := pg.strokes.dropLast } := by
  simp [undo, h]

/-- Helper: undo on a page with no strokes changes nothing. -/
theorem undo_of_empty_strokes (pg : Page) (h : pg.strokes = []) : undo pg = pg := by
  simp [undo, h]

/-- Helper: undoing as many times as there are strokes empties the
stroke list. -/
theorem undo_iterate_empties :
    ∀ (N : ℕ) (pg : Page), pg.strokes.length = N → (undo^[N] pg).strokes = [] := by
  intro N
  induction N with
  | zero =>
      intro pg h
      simpa using List.length_eq_zero.mp h
  | succ n ih =>
      intro pg h
      rw [Function.iterate_succ_apply]
      apply ih
      have hne : pg.strokes ≠ [] := by
        intro he
        rw [he] at h
        simp at h
      rw [undo_step pg hne]
      simp [List.length_dropLast, h]

/-- Claim C6: for a page holding N committed strokes, N undos yield an
empty stroke list; a further undo on the emptied page is a no-op (the
page is returned unchanged, hence no exception); each single undo on a
nonempty page pushes the current stroke list onto the undo history and
removes exactly the last stroke. -/
theorem undo_drains_page (pg : Page) (N : ℕ) (h : pg.strokes.length = N) :
    (undo^[N] pg).strokes = []
    ∧ undo (undo^[N] pg) = undo^[N] pg
    ∧ (pg.strokes ≠ [] →
        undo pg = { pg with undo_stack := pg.undo_stack ++ [pg.strokes],
                            strokes := pg.strokes.dropLast }) := by
  refine ⟨undo_iterate_empties N pg h, ?_, fun hne => undo_step pg hne⟩
  exact undo_of_empty_strokes _ (undo_iterate_empties N pg h)

/-- Witness for claim C6 at a concrete two-stroke page. -/
theorem undo_drains_page_witness :
    pgTwo.strokes.length = 2
    ∧ (undo^[2] pgTwo).strokes = []
    ∧ undo (undo^[2] pgTwo) = undo^[2] pgTwo
    ∧ undo pgTwo = { pgTwo with undo_stack := pgTwo.undo_stack ++ [pgTwo.strokes],
                                strokes := pgTwo.strokes.dropLast } := by
  have h := undo_drains_page pgTwo 2 rfl
  exact ⟨rfl, h.1, h.2.1, h.2.2 (by simp [pgTwo])⟩

-- C9
/-- Helper: no page operation ever appends to `redo_stack` — it either
leaves `redo_stack` untouched or clears it. -/
theorem applyOp_redo_stack_cases (pg : Page) (op : PageOp) :
    (applyOp pg op).redo_stack = pg.redo_stack ∨ (applyOp pg op).redo_stack = [] := by
  cases op with
  | commitFreehand s => right; rfl
  | commitShape s => right; rfl
  | undoOp =>
      left
      show (undo pg).redo_stack = pg.redo_stack
      unfold undo
      split <;> rfl
  | redoOp =>
      left
      show (redo pg).redo_stack = pg.redo_stack
      unfold redo
      split
      · rfl
      · split <;> rfl
  | eraseOp r pos =>
      left
      show (eraseAt r pos pg).redo_stack = pg.redo_stack
      unfold eraseAt
      simp only []
      split <;> rfl
  | clearOp =>
      left
      show (clear_page pg).redo_stack = pg.redo_stack
      unfold clear_page
      split <;> rfl

/-- Helper: an empty `redo_stack` is preserved by any sequence of page
operations. -/
theorem applyOps_redo_stack_empty :
    ∀ (ops : List PageOp) (pg : Page), pg.redo_stack = [] →
      (applyOps pg ops).redo_stack = [] := by
  intro ops
  induction ops with
  | nil => intro pg h; simpa [applyOps] using h
  | cons op rest ih =>
      intro pg h
      show (applyOps (applyOp pg op) rest).redo_stack = []
      apply ih
      rcases applyOp_redo_stack_cases pg op with hc | hc
      · rw [hc, h]
      · exact hc

/-- Claim C9: starting from a fresh page, every reachable state after
any sequence of operations (stroke/shape commit, undo, redo, erase,
clear-page) has an empty `redo_stack`; moreover no single operation ever
appends to `redo_stack` (each either preserves it or clears it) — redo
itself pops snapshots from `undo_stack`, as its definition shows. -/
theorem redo_stack_never_populated :
    (∀ ops : List PageOp, (applyOps freshPage ops).redo_stack = [])
    ∧ (∀ (pg : Page) (op : PageOp),
        (applyOp pg op).redo_stack = pg.redo_stack ∨ (applyOp pg op).redo_stack = []) :=
  ⟨fun ops => applyOps_redo_stack_empty ops freshPage rfl, applyOp_redo_stack_cases⟩

-- C4
/-- Claim C4: an erase query that hits no stroke leaves the page
completely unchanged (stroke list not replaced, no undo-history push),
and a second erase at the same point is likewise a complete no-op. -/
theorem erase_miss_is_noop (r : ℚ) (pos : Point) (pg : Page)
    (h : ∀ s ∈ pg.strokes, strokeHit r pos s = false) :
    eraseAt r pos pg = pg ∧ eraseAt r pos (eraseAt r pos pg) = pg := by
  have hfil : pg.strokes.filter (fun s => ! strokeHit r pos s) = pg.strokes := by
    apply List.filter_eq_self.mpr
    intro s hs
    simp [h s hs]
  have h1 : eraseAt r pos pg = pg := by
    unfold eraseAt
    simp [hfil]
  exact ⟨h1, by rw [h1, h1]⟩

/-- Witness for claim C4 at a concrete page whose single stroke is far
from the erase point. -/
theorem erase_miss_is_noop_witness :
    (∀ s ∈ pgFar.strokes, strokeHit 3 ⟨0, 0⟩ s = false)
    ∧ eraseAt 3 ⟨0, 0⟩ pgFar = pgFar
    ∧ eraseAt 3 ⟨0, 0⟩ (eraseAt 3 ⟨0, 0⟩ pgFar) = pgFar := by
  have h : ∀ s ∈ pgFar.strokes, strokeHit 3 ⟨0, 0⟩ s = false := by
    intro s hs
    simp only [pgFar, List.mem_singleton] at hs
    subst hs
    simp only [strokeHit, farStroke, sqDist, List.any]
    norm_num
  exact ⟨h, (erase_miss_is_noop 3 ⟨0, 0⟩ pgFar h).1, (erase_miss_is_noop 3 ⟨0, 0⟩ pgFar h).2⟩

-- C1

/-- Helper: evaluating the erase query at the origin on `pgA` removes
its stroke and pushes the pre-erase list. -/
theorem eraseAt_pgA_eval :
    eraseAt 5 ⟨0, 0⟩ pgA = { strokes := [], undo_stack := [[sA]] } := by
  unfold eraseAt pgA
  norm_num [strokeHit, sA, sqDist, List.filter]

/-- Counterexample to claim C1 as stated: after an erase query that
removed a stroke, a redo with no intervening undo does NOT leave the
stroke list unchanged — it changes it (restoring the erased stroke). -/
theorem redo_after_erase_changes_strokes :
    (redo (eraseAt 5 ⟨0, 0⟩ pgA)).strokes ≠ (eraseAt 5 ⟨0, 0⟩ pgA).strokes := by
  rw [eraseAt_pgA_eval]
  simp [redo, List.getLast?]

/-- Claim C1 (amended): a commit clears `redo_stack`, but redo pops
from `undo_stack` and restores the popped snapshot whenever it is
strictly longer than the current stroke list; consequently a redo
immediately after an erase that removed at least one stroke — with no
intervening undo — restores the pre-erase page exactly, rather than
leaving the stroke list unchanged. -/
theorem redo_right_after_erase_restores (r : ℚ) (pos : Point) (pg : Page)
    (h : (eraseAt r pos pg).strokes.length < pg.strokes.length) :
    redo (eraseAt r pos pg) = pg
    ∧ (∀ (s : Stroke) (pg2 : Page), (commit s pg2).redo_stack = []) := by
  refine ⟨?_, fun s pg2 => rfl⟩
  by_cases hc :
      (pg.strokes.filter fun s => ! strokeHit r pos s).length < pg.strokes.length
  · unfold eraseAt
    rw [if_pos hc]
    unfold redo
    simp only [List.getLast?_concat, List.dropLast_concat, hc, if_true]
  · exfalso
    unfold eraseAt at h
    rw [if_neg hc] at h
    exact lt_irrefl _ h

/-- Witness for the amended claim C1 at a concrete one-stroke page. -/
theorem redo_right_after_erase_restores_witness :
    (eraseAt 5 ⟨0, 0⟩ pgA).strokes.length < pgA.strokes.length
    ∧ redo (eraseAt 5 ⟨0, 0⟩ pgA) = pgA := by
  have h : (eraseAt 5 ⟨0, 0⟩ pgA).strokes.length < pgA.strokes.length := by
    rw [eraseAt_pgA_eval]
    simp [pgA]
  exact ⟨h, (redo_right_after_erase_restores 5 ⟨0, 0⟩ pgA h).1⟩

-- C3 bridge lemmas
/-- Helper: squared distance is nonnegative. -/
theorem sqDist_nonneg (p q : Point) : 0 ≤ sqDist p q := by
  unfold sqDist
  positivity

/-- Helper: the Euclidean distance is the square root of `sqDist`. -/
theorem rdist_eq_sqrt_sqDist (p q : Point) :
    rdist p q = Real.sqrt ((sqDist p q : ℚ) : ℝ) := by
  unfold rdist sqDist
  congr 1
  push_cast
  ring

/-- Helper: for a nonnegative threshold, comparing the Euclidean
distance is equivalent to comparing the squared distance (this is the
faithfulness of the squared-form embedding of `math.hypot`). -/
theorem rdist_le_iff (p q : Point) (t : ℝ) (ht : 0 ≤ t) :
    rdist p q ≤ t ↔ ((sqDist p q : ℚ) : ℝ) ≤ t ^ 2 := by
  rw [rdist_eq_sqrt_sqDist]
  exact Real.sqrt_le_left ht

/-- Helper: strict version of the distance comparison bridge. -/
theorem rdist_lt_iff (p q : Point) (t : ℝ) (ht : 0 ≤ t) :
    rdist p q < t ↔ ((sqDist p q : ℚ) : ℝ) < t ^ 2 := by
  rw [rdist_eq_sqrt_sqDist]
  rcases eq_or_lt_of_le ht with h0 | h0
  · rw [← h0]
    constructor
    · intro hlt
      exact absurd hlt (not_lt.mpr (Real.sqrt_nonneg _))
    · intro hlt
      exfalso
      have : (0 : ℝ) ≤ ((sqDist p q : ℚ) : ℝ) := by
        exact_mod_cast sqDist_nonneg p q
      simp only [ne_eq, OfNat.ofNat_ne_zero, not_false_eq_true, zero_pow] at hlt
      linarith
  · exact Real.sqrt_lt' h0

/-- Claim C3: for an erase query at `pos` with radius `r ≥ 0`, the
surviving strokes are exactly the filter of the per-stroke predicate
(each stroke judged independently, removed only in its entirety); a
shape stroke (both endpoints set) is hit iff the Euclidean distance from
`pos` to the midpoint of its endpoints is ≤ 2r; a freehand stroke is hit
iff some stored point lies at Euclidean distance < r from `pos`. -/
theorem erase_removal_characterization (r : ℚ) (pos : Point) (pg : Page) (hr : 0 ≤ r) :
    ((eraseAt r pos pg).strokes = pg.strokes.filter (fun s => ! strokeHit r pos s))
    ∧ (∀ (s : Stroke) (a b : Point), s.start_point = some a → s.end_point = some b →
        (strokeHit r pos s = true ↔ rdist pos (shapeMid a b) ≤ 2 * (r : ℝ)))
    ∧ (∀ s : Stroke, (s.start_point = none ∨ s.end_point = none) →
        (strokeHit r pos s = true ↔ ∃ q ∈ s.points, rdist pos q < (r : ℝ))) := by
  refine ⟨?_, ?_, ?_⟩
  · unfold eraseAt
    simp only []
    split
    · rfl
    · rename_i hnl
      exact ((List.filter_sublist _).eq_of_length
        (Nat.le_antisymm (List.Sublist.length_le (List.filter_sublist _))
          (Nat.le_of_not_lt hnl))).symm
  · intro s a b ha hb
    unfold strokeHit
    rw [ha, hb]
    simp only [decide_eq_true_eq]
    rw [rdist_le_iff pos (shapeMid a b) (2 * (r : ℝ)) (by positivity)]
    constructor
    · intro hq
      calc ((sqDist pos (shapeMid a b) : ℚ) : ℝ) ≤ (((r * 2 : ℚ) ^ 2 : ℚ) : ℝ) := by
            exact_mod_cast hq
        _ = (2 * (r : ℝ)) ^ 2 := by push_cast; ring
    · intro hq
      have : ((sqDist pos (shapeMid a b) : ℚ) : ℝ) ≤ (((r * 2 : ℚ) ^ 2 : ℚ) : ℝ) := by
        calc ((sqDist pos (shapeMid a b) : ℚ) : ℝ) ≤ (2 * (r : ℝ)) ^ 2 := hq
          _ = (((r * 2 : ℚ) ^ 2 : ℚ) : ℝ) := by push_cast; ring
      exact_mod_cast this
  · intro s hnone
    unfold strokeHit
    cases hs : s.start_point with
    | some a =>
        cases he : s.end_point with
        | some b =>
            exfalso
            rcases hnone with h1 | h1
            · rw [hs] at h1; exact Option.noConfusion h1
            · rw [he] at h1; exact Option.noConfusion h1
        | none =>
            rw [List.any_eq_true]
            constructor
            · rintro ⟨q, hq, hdec⟩
              refine ⟨q, hq, ?_⟩
              rw [decide_eq_true_eq] at hdec
              rw [rdist_lt_iff pos q (r : ℝ) (by exact_mod_cast hr)]
              calc ((sqDist pos q : ℚ) : ℝ) < (((r : ℚ) ^ 2 : ℚ) : ℝ) := by exact_mod_cast hdec
                _ = (r : ℝ) ^ 2 := by push_cast; ring
            · rintro ⟨q, hq, hlt⟩
              refine ⟨q, hq, ?_⟩
              rw [decide_eq_true_eq]
              rw [rdist_lt_iff pos q (r : ℝ) (by exact_mod_cast hr)] at hlt
              have : ((sqDist pos q : ℚ) : ℝ) < (((r : ℚ) ^ 2 : ℚ) : ℝ) := by
                calc ((sqDist pos q : ℚ) : ℝ) < (r : ℝ) ^ 2 := hlt
                  _ = (((r : ℚ) ^ 2 : ℚ) : ℝ) := by push_cast; ring
              exact_mod_cast this
    | none =>
        rw [List.any_eq_true]
        constructor
        · rintro ⟨q, hq, hdec⟩
          refine ⟨q, hq, ?_⟩
          rw [decide_eq_true_eq] at hdec
          rw [rdist_lt_iff pos q (r : ℝ) (by exact_mod_cast hr)]
          calc ((sqDist pos q : ℚ) : ℝ) < (((r : ℚ) ^ 2 : ℚ) : ℝ) := by exact_mod_cast hdec
            _ = (r : ℝ) ^ 2 := by push_cast; ring
        · rintro ⟨q, hq, hlt⟩
          refine ⟨q, hq, ?_⟩
          rw [decide_eq_true_eq]
          rw [rdist_lt_iff pos q (r : ℝ) (by exact_mod_cast hr)] at hlt
          have : ((sqDist pos q : ℚ) : ℝ) < (((r : ℚ) ^ 2 : ℚ) : ℝ) := by
            calc ((sqDist pos q : ℚ) : ℝ) < (r : ℝ) ^ 2 := hlt
              _ = (((r : ℚ) ^ 2 : ℚ) : ℝ) := by push_cast; ring
          exact_mod_cast this

-- C3 witness
/-- Witness for claim C3 at radius 3 on a concrete page. -/
theorem erase_removal_characterization_witness :
    (0 : ℚ) ≤ 3
    ∧ (eraseAt 3 ⟨0, 0⟩ pgFar).strokes
        = pgFar.strokes.filter (fun s => ! strokeHit 3 ⟨0, 0⟩ s) :=
  ⟨by norm_num, (erase_removal_characterization 3 ⟨0, 0⟩ pgFar (by norm_num)).1⟩

-- C5 helpers
/-- Helper: squared distance from the smoothed point to the raw
pointer position is 9/100 of the previous squared distance. -/
theorem sqDist_smooth (prev raw : Point) :
    sqDist (smoothPoint prev raw) raw = (9 / 100) * sqDist prev raw := by
  unfold sqDist smoothPoint SMOOTHING_FACTOR
  ring

/-- Helper: the Euclidean distance from the smoothed point to the raw
position is exactly 3/10 of the previous distance. -/
theorem rdist_smooth (prev raw : Point) :
    rdist (smoothPoint prev raw) raw = (3 / 10) * rdist prev raw := by
  rw [rdist_eq_sqrt_sqDist, rdist_eq_sqrt_sqDist, sqDist_smooth]
  have hc : (((9 / 100 : ℚ) * sqDist prev raw : ℚ) : ℝ)
      = ((3 / 10 : ℝ)) ^ 2 * ((sqDist prev raw : ℚ) : ℝ) := by
    push_cast
    ring
  rw [hc, Real.sqrt_mul (by positivity), Real.sqrt_sq (by norm_num)]

/-- Helper: n repeated smoothing steps toward a fixed raw position
scale the distance by (3/10)^n. -/
theorem rdist_smooth_iterate (prev raw : Point) (n : ℕ) :
    rdist ((fun q => smoothPoint q raw)^[n] prev) raw
      = (3 / 10 : ℝ) ^ n * rdist prev raw := by
  induction n with
  | zero => simp
  | succ k ih =>
      rw [Function.iterate_succ_apply', rdist_smooth, ih, pow_succ]
      ring

/-- Helper: a pointer move while drawing freehand appends exactly the
smoothed point to the in-progress stroke. -/
theorem mouseMove_freehand_step (c : Canvas) (pos : Point) (st : Stroke) (prev : Point)
    (hd : c.drawing = true) (hsh : isShapeTool c.current_tool = false)
    (her : ¬ c.current_tool = .ERASER) (hs : c.current_stroke = some st)
    (hl : st.points.getLast? = some prev) :
    mouseMoveEvent c pos
      = { c with
          current_stroke := some ({ st with points := st.points ++ [smoothPoint prev pos] }) } := by
  unfold mouseMoveEvent
  simp [hd, hsh, her, hs, hl]

/-- Helper: n repeated pointer moves at one raw position keep the
canvas in the freehand-drawing state and leave the n-fold smoothed point
as the last stored point. -/
theorem mouseMove_freehand_iterate (c : Canvas) (raw : Point) (st : Stroke) (prev : Point)
    (hd : c.drawing = true) (hsh : isShapeTool c.current_tool = false)
    (her : ¬ c.current_tool = .ERASER) (hs : c.current_stroke = some st)
    (hl : st.points.getLast? = some prev) :
    ∀ n : ℕ, ∃ st' : Stroke,
      ((fun d => mouseMoveEvent d raw)^[n] c).current_stroke = some st'
      ∧ st'.points.getLast? = some ((fun q => smoothPoint q raw)^[n] prev)
      ∧ ((fun d => mouseMoveEvent d raw)^[n] c).drawing = true
      ∧ ((fun d => mouseMoveEvent d raw)^[n] c).current_tool = c.current_tool := by
  intro n
  induction n with
  | zero => exact ⟨st, hs, hl, hd, rfl⟩
  | succ k ih =>
      obtain ⟨st', h1, h2, h3, h4⟩ := ih
      rw [Function.iterate_succ_apply']
      have step := mouseMove_freehand_step ((fun d => mouseMoveEvent d raw)^[k] c) raw st'
        ((fun q => smoothPoint q raw)^[k] prev) h3 (by rw [h4]; exact hsh)
        (by rw [h4]; exact her) h1 h2
      rw [step]
      refine ⟨_, rfl, ?_, h3, h4⟩
      rw [List.getLast?_concat, Function.iterate_succ_apply']

/-- Claim C5: while drawing freehand, each pointer move appends
exactly `prev + (raw - prev) * 0.7`; the distance from the appended
point to the raw position is 3/10 of the previous distance, so n
repeated moves at one raw position scale it by (3/10)^n (geometric
convergence), realized by the actual event function; and the appended
point stays componentwise between the previous point and the raw
position (never overshoots). -/
theorem freehand_move_smoothing (c : Canvas) (raw : Point) (st : Stroke) (prev : Point)
    (hd : c.drawing = true)
    (ht : c.current_tool = .PEN ∨ c.current_tool = .HIGHLIGHTER ∨ c.current_tool = .CHISEL)
    (hs : c.current_stroke = some st) (hl : st.points.getLast? = some prev) :
    mouseMoveEvent c raw
      = { c with
          current_stroke := some ({ st with points := st.points ++ [smoothPoint prev raw] }) }
    ∧ (smoothPoint prev raw).x = prev.x + (raw.x - prev.x) * (7 / 10)
    ∧ (smoothPoint prev raw).y = prev.y + (raw.y - prev.y) * (7 / 10)
    ∧ rdist (smoothPoint prev raw) raw = (3 / 10) * rdist prev raw
    ∧ (∀ n : ℕ, rdist ((fun q => smoothPoint q raw)^[n] prev) raw
        = (3 / 10 : ℝ) ^ n * rdist prev raw)
    ∧ (∀ n : ℕ, ∃ st' : Stroke,
        ((fun d => mouseMoveEvent d raw)^[n] c).current_stroke = some st'
        ∧ st'.points.getLast? = some ((fun q => smoothPoint q raw)^[n] prev))
    ∧ min prev.x raw.x ≤ (smoothPoint prev raw).x
    ∧ (smoothPoint prev raw).x ≤ max prev.x raw.x
    ∧ min prev.y raw.y ≤ (smoothPoint prev raw).y
    ∧ (smoothPoint prev raw).y ≤ max prev.y raw.y := by
  have hsh : isShapeTool c.current_tool = false := by
    rcases ht with h | h | h <;> rw [h] <;> rfl
  have her : ¬ c.current_tool = .ERASER := by
    rcases ht with h | h | h <;> rw [h] <;> intro hfalse <;> exact ToolType.noConfusion hfalse
  refine ⟨mouseMove_freehand_step c raw st prev hd hsh her hs hl, ?_, ?_,
    rdist_smooth prev raw, rdist_smooth_iterate prev raw, ?_, ?_, ?_, ?_, ?_⟩
  · unfold smoothPoint SMOOTHING_FACTOR
    ring
  · unfold smoothPoint SMOOTHING_FACTOR
    ring
  · intro n
    obtain ⟨st', h1, h2, _, _⟩ :=
      mouseMove_freehand_iterate c raw st prev hd hsh her hs hl n
    exact ⟨st', h1, h2⟩
  · rcases le_total prev.x raw.x with h | h
    · rw [min_eq_left h]
      unfold smoothPoint SMOOTHING_FACTOR
      simp only []
      nlinarith
    · rw [min_eq_right h]
      unfold smoothPoint SMOOTHING_FACTOR
      simp only []
      nlinarith
  · rcases le_total prev.x raw.x with h | h
    · rw [max_eq_right h]
      unfold smoothPoint SMOOTHING_FACTOR
      simp only []
      nlinarith
    · rw [max_eq_left h]
      unfold smoothPoint SMOOTHING_FACTOR
      simp only []
      nlinarith
  · rcases le_total prev.y raw.y with h | h
    · rw [min_eq_left h]
      unfold smoothPoint SMOOTHING_FACTOR
      simp only []
      nlinarith
    · rw [min_eq_right h]
      unfold smoothPoint SMOOTHING_FACTOR
      simp only []
      nlinarith
  · rcases le_total prev.y raw.y with h | h
    · rw [max_eq_right h]
      unfold smoothPoint SMOOTHING_FACTOR
      simp only []
      nlinarith
    · rw [max_eq_left h]
      unfold smoothPoint SMOOTHING_FACTOR
      simp only []
      nlinarith

/-- Witness for claim C5 on a concrete mid-drag canvas. -/
theorem freehand_move_smoothing_witness :
    cW.drawing = true
    ∧ (cW.current_tool = .PEN ∨ cW.current_tool = .HIGHLIGHTER ∨ cW.current_tool = .CHISEL)
    ∧ cW.current_stroke = some stW
    ∧ stW.points.getLast? = some ⟨0, 0⟩
    ∧ mouseMoveEvent cW ⟨10, 0⟩
        = { cW with
            current_stroke :=
              some ({ stW with points := stW.points ++ [smoothPoint ⟨0, 0⟩ ⟨10, 0⟩] }) } :=
  ⟨rfl, Or.inl rfl, rfl, rfl,
    (freehand_move_smoothing cW ⟨10, 0⟩ stW ⟨0, 0⟩ rfl (Or.inl rfl) rfl rfl).1⟩

-- C7
/-- Helper: the normalized rectangle of two corners has the
componentwise minimum as position and absolute differences as size. -/
theorem normalized_mkQRectF (s e : Point) :
    (mkQRectF s e).normalized
      = ⟨min s.x e.x, min s.y e.y, |e.x - s.x|, |e.y - s.y|⟩ := by
  unfold mkQRectF QRect.normalized
  simp only []
  split_ifs with hx hy hy
  · rw [QRect.mk.injEq]
    refine ⟨?_, ?_, ?_, ?_⟩
    · rw [min_eq_right (by linarith)]
      ring
    · rw [min_eq_right (by linarith)]
      ring
    · rw [abs_of_neg hx]
    · rw [abs_of_neg hy]
  · rw [QRect.mk.injEq]
    refine ⟨?_, ?_, ?_, ?_⟩
    · rw [min_eq_right (by linarith)]
      ring
    · rw [min_eq_left (by linarith)]
    · rw [abs_of_neg hx]
    · rw [abs_of_nonneg (by linarith)]
  · rw [QRect.mk.injEq]
    refine ⟨?_, ?_, ?_, ?_⟩
    · rw [min_eq_left (by linarith)]
    · rw [min_eq_right (by linarith)]
      ring
    · rw [abs_of_nonneg (by linarith)]
    · rw [abs_of_neg hy]
  · rw [QRect.mk.injEq]
    refine ⟨?_, ?_, ?_, ?_⟩
    · rw [min_eq_left (by linarith)]
    · rw [min_eq_left (by linarith)]
    · rw [abs_of_nonneg (by linarith)]
    · rw [abs_of_nonneg (by linarith)]

/-- Helper: normalization is symmetric in the two corners. -/
theorem normalized_symm (s e : Point) :
    (mkQRectF s e).normalized = (mkQRectF e s).normalized := by
  rw [normalized_mkQRectF, normalized_mkQRectF, min_comm, min_comm s.y,
    abs_sub_comm, abs_sub_comm e.y]

/-- Claim C7: rectangle and circle strokes always render on the
normalized axis-aligned bounding box of their endpoints, so swapping
start and end yields the identical painter command; in particular the
box rendered for start (200,200), end (50,50) is the normalized box with
corners (50,50) and (200,200). -/
theorem rect_circle_render_normalized (s e : Point) (col : Color) (w o : ℚ)
    (pts : List Point) :
    (paintShapeCmd { points := pts, color := col, width := w, tool := .RECTANGLE,
                     opacity := o, start_point := some s, end_point := some e }
      = paintShapeCmd { points := pts, color := col, width := w, tool := .RECTANGLE,
                        opacity := o, start_point := some e, end_point := some s })
    ∧ (paintShapeCmd { points := pts, color := col, width := w, tool := .CIRCLE,
                       opacity := o, start_point := some s, end_point := some e }
      = paintShapeCmd { points := pts, color := col, width := w, tool := .CIRCLE,
                        opacity := o, start_point := some e, end_point := some s })
    ∧ paintShapeCmd { tool := .RECTANGLE, start_point := some ⟨200, 200⟩,
                      end_point := some ⟨50, 50⟩ }
        = some (.drawRect (mkQRectF ⟨50, 50⟩ ⟨200, 200⟩).normalized)
    ∧ paintShapeCmd { tool := .CIRCLE, start_point := some ⟨200, 200⟩,
                      end_point := some ⟨50, 50⟩ }
        = some (.drawEllipse (mkQRectF ⟨50, 50⟩ ⟨200, 200⟩).normalized) := by
  refine ⟨?_, ?_, ?_, ?_⟩
  · show some (ShapeCmd.drawRect (mkQRectF s e).normalized)
      = some (ShapeCmd.drawRect (mkQRectF e s).normalized)
    rw [normalized_symm]
  · show some (ShapeCmd.drawEllipse (mkQRectF s e).normalized)
      = some (ShapeCmd.drawEllipse (mkQRectF e s).normalized)
    rw [normalized_symm]
  · show some (ShapeCmd.drawRect (mkQRectF ⟨200, 200⟩ ⟨50, 50⟩).normalized)
      = some (ShapeCmd.drawRect (mkQRectF ⟨50, 50⟩ ⟨200, 200⟩).normalized)
    rw [normalized_symm]
  · show some (ShapeCmd.drawEllipse (mkQRectF ⟨200, 200⟩ ⟨50, 50⟩).normalized)
      = some (ShapeCmd.drawEllipse (mkQRectF ⟨50, 50⟩ ⟨200, 200⟩).normalized)
    rw [normalized_symm]

-- C10
/-- Claim C10: a left press immediately followed by release with a
shape tool commits a degenerate shape stroke whose start and end both
equal the click position (no minimum size is enforced; the
`MIN_SHAPE_SIZE` constant is referenced nowhere), and clears
`redo_stack`; the same click with pen, highlighter or chisel leaves the
page untouched, the single-point freehand stroke being discarded. -/
theorem click_release_behavior (c : Canvas) (p : Point) :
    (isShapeTool c.current_tool = true →
      (mouseReleaseEvent (mousePressEvent c p)).page.strokes
        = c.page.strokes
          ++ [{ points := [], color := c.current_color, width := c.current_width,
                tool := c.current_tool, opacity := c.current_opacity,
                start_point := some p, end_point := some p }]
      ∧ (mouseReleaseEvent (mousePressEvent c p)).page.redo_stack = [])
    ∧ ((c.current_tool = .PEN ∨ c.current_tool = .HIGHLIGHTER ∨ c.current_tool = .CHISEL) →
      (mouseReleaseEvent (mousePressEvent c p)).page = c.page) := by
  constructor
  · intro hsh
    have hcur : ¬ c.current_tool = .CURSOR := by
      intro hc
      rw [hc] at hsh
      exact Bool.noConfusion hsh
    have hpress : mousePressEvent c p
        = { c with shape_start := some p, shape_preview_end := some p, drawing := true } := by
      unfold mousePressEvent
      simp [hcur, hsh]
    rw [hpress]
    unfold mouseReleaseEvent
    simp [hsh, commit]
  · intro ht
    have hsh : isShapeTool c.current_tool = false := by
      rcases ht with h | h | h <;> rw [h] <;> rfl
    have hcur : ¬ c.current_tool = .CURSOR := by
      rcases ht with h | h | h <;> rw [h] <;> intro hf <;> exact ToolType.noConfusion hf
    have her : ¬ c.current_tool = .ERASER := by
      rcases ht with h | h | h <;> rw [h] <;> intro hf <;> exact ToolType.noConfusion hf
    have hpress : mousePressEvent c p
        = { c with
            drawing := true
            current_stroke := some ({ points := [p], color := c.current_color, width := c.current_width, tool := c.current_tool, opacity := c.current_opacity }) } := by
      unfold mousePressEvent
      simp [hcur, hsh, her]
    rw [hpress]
    unfold mouseReleaseEvent
    simp [hsh, her]

/-- Witness for claim C10 with concrete line-tool and pen-tool
canvases. -/
theorem click_release_behavior_witness :
    isShapeTool cShape.current_tool = true
    ∧ (mouseReleaseEvent (mousePressEvent cShape ⟨4, 5⟩)).page.strokes
        = cShape.page.strokes
          ++ [{ points := [], color := cShape.current_color, width := cShape.current_width,
                tool := cShape.current_tool, opacity := cShape.current_opacity,
                start_point := some ⟨4, 5⟩, end_point := some ⟨4, 5⟩ }]
    ∧ (cPen.current_tool = .PEN ∨ cPen.current_tool = .HIGHLIGHTER
        ∨ cPen.current_tool = .CHISEL)
    ∧ (mouseReleaseEvent (mousePressEvent cPen ⟨4, 5⟩)).page = cPen.page :=
  ⟨rfl, ((click_release_behavior cShape ⟨4, 5⟩).1 rfl).1, Or.inl rfl,
    (click_release_behavior cPen ⟨4, 5⟩).2 (Or.inl rfl)⟩

-- C8 helpers
/-- Helper: a point offset from a center by distance L along any angle
lies at Euclidean distance L from the center. -/
theorem dist_polar (ex ey L a : ℝ) (hL : 0 ≤ L) :
    rdistR ⟨ex + L * Real.cos a, ey + L * Real.sin a⟩ ⟨ex, ey⟩ = L := by
  unfold rdistR
  simp only []
  have hpy : (ex + L * Real.cos a - ex) ^ 2 + (ey + L * Real.sin a - ey) ^ 2 = L ^ 2 := by
    have h := Real.cos_sq_add_sin_sq a
    calc (ex + L * Real.cos a - ex) ^ 2 + (ey + L * Real.sin a - ey) ^ 2
        = L ^ 2 * (Real.cos a ^ 2 + Real.sin a ^ 2) := by ring
      _ = L ^ 2 := by rw [h]; ring
  rw [hpy, Real.sqrt_sq hL]

/-- Helper: the arrowhead length is nonnegative. -/
theorem arrow_len_nonneg (w : ℚ) : (0 : ℝ) ≤ max 15 ((w : ℝ) * 4) :=
  le_trans (by norm_num) (le_max_left _ _)

/-- Helper: 150 degrees in radians is pi - pi/6. -/
theorem radians_150 : radians 150 = Real.pi - Real.pi / 6 := by
  unfold radians
  ring

/-- Claim C8: the arrowhead length equals `max 15 (4 * width)`, both
back points of the head lie at exactly that Euclidean distance from the
end point at angles of plus and minus 150 degrees from the line angle;
concretely, for start (0,0), end (100,0), width 5 the head length is 20
and the back points are `(100 - 10*sqrt 3, 10)` and
`(100 - 10*sqrt 3, -10)` — i.e. at angle 0 ± 150 degrees from the end at
distance 20. -/
theorem arrow_head_geometry (s e : Point) (w : ℚ) :
    (draw_arrow s e w).headLen = max 15 (4 * (w : ℝ))
    ∧ (draw_arrow s e w).lineA = s
    ∧ (draw_arrow s e w).lineB = e
    ∧ rdistR (draw_arrow s e w).back1 ⟨(e.x : ℝ), (e.y : ℝ)⟩ = (draw_arrow s e w).headLen
    ∧ rdistR (draw_arrow s e w).back2 ⟨(e.x : ℝ), (e.y : ℝ)⟩ = (draw_arrow s e w).headLen
    ∧ (draw_arrow ⟨0, 0⟩ ⟨100, 0⟩ 5).headLen = 20
    ∧ (draw_arrow ⟨0, 0⟩ ⟨100, 0⟩ 5).back1.x = 100 + 20 * Real.cos (radians 150)
    ∧ (draw_arrow ⟨0, 0⟩ ⟨100, 0⟩ 5).back1.y = 20 * Real.sin (radians 150)
    ∧ (draw_arrow ⟨0, 0⟩ ⟨100, 0⟩ 5).back2.x = 100 + 20 * Real.cos (radians 150)
    ∧ (draw_arrow ⟨0, 0⟩ ⟨100, 0⟩ 5).back2.y = -(20 * Real.sin (radians 150))
    ∧ (draw_arrow ⟨0, 0⟩ ⟨100, 0⟩ 5).back1.x = 100 - 10 * Real.sqrt 3
    ∧ (draw_arrow ⟨0, 0⟩ ⟨100, 0⟩ 5).back1.y = 10
    ∧ (draw_arrow ⟨0, 0⟩ ⟨100, 0⟩ 5).back2.y = -10 := by
  have hangle : atan2 (((0 : ℚ) : ℝ) - ((0 : ℚ) : ℝ)) (((100 : ℚ) : ℝ) - ((0 : ℚ) : ℝ)) = 0 := by
    unfold atan2
    have hz : (⟨((100 : ℚ) : ℝ) - ((0 : ℚ) : ℝ), ((0 : ℚ) : ℝ) - ((0 : ℚ) : ℝ)⟩ : ℂ)
        = ((100 : ℝ) : ℂ) := by
      apply Complex.ext <;> simp
    rw [hz]
    exact Complex.arg_ofReal_of_nonneg (by norm_num)
  have hL20 : max (15 : ℝ) (((5 : ℚ) : ℝ) * 4) = 20 := by
    rw [show ((5 : ℚ) : ℝ) = 5 by norm_num]
    rw [max_eq_right (by norm_num : (15 : ℝ) ≤ 5 * 4)]
    norm_num
  have hcos : Real.cos (radians 150) = -(Real.sqrt 3 / 2) := by
    rw [radians_150, Real.cos_pi_sub, Real.cos_pi_div_six]
  have hsin : Real.sin (radians 150) = 1 / 2 := by
    rw [radians_150, Real.sin_pi_sub, Real.sin_pi_div_six]
  refine ⟨?_, rfl, rfl, ?_, ?_, ?_, ?_, ?_, ?_, ?_, ?_, ?_, ?_⟩
  · show max (15 : ℝ) ((w : ℝ) * 4) = max 15 (4 * (w : ℝ))
    rw [mul_comm]
  · exact dist_polar _ _ _ _ (arrow_len_nonneg w)
  · exact dist_polar _ _ _ _ (arrow_len_nonneg w)
  · show max (15 : ℝ) (((5 : ℚ) : ℝ) * 4) = 20
    exact hL20
  · show ((100 : ℚ) : ℝ) + max 15 (((5 : ℚ) : ℝ) * 4)
        * Real.cos (atan2 (((0 : ℚ) : ℝ) - ((0 : ℚ) : ℝ)) (((100 : ℚ) : ℝ) - ((0 : ℚ) : ℝ))
            + radians 150)
      = 100 + 20 * Real.cos (radians 150)
    rw [hangle, zero_add, hL20]
    norm_num
  · show ((0 : ℚ) : ℝ) + max 15 (((5 : ℚ) : ℝ) * 4)
        * Real.sin (atan2 (((0 : ℚ) : ℝ) - ((0 : ℚ) : ℝ)) (((100 : ℚ) : ℝ) - ((0 : ℚ) : ℝ))
            + radians 150)
      = 20 * Real.sin (radians 150)
    rw [hangle, zero_add, hL20]
    norm_num
  · show ((100 : ℚ) : ℝ) + max 15 (((5 : ℚ) : ℝ) * 4)
        * Real.cos (atan2 (((0 : ℚ) : ℝ) - ((0 : ℚ) : ℝ)) (((100 : ℚ) : ℝ) - ((0 : ℚ) : ℝ))
            - radians 150)
      = 100 + 20 * Real.cos (radians 150)
    rw [hangle, zero_sub, Real.cos_neg, hL20]
    norm_num
  · show ((0 : ℚ) : ℝ) + max 15 (((5 : ℚ) : ℝ) * 4)
        * Real.sin (atan2 (((0 : ℚ) : ℝ) - ((0 : ℚ) : ℝ)) (((100 : ℚ) : ℝ) - ((0 : ℚ) : ℝ))
            - radians 150)
      = -(20 * Real.sin (radians 150))
    rw [hangle, zero_sub, Real.sin_neg, hL20]
    norm_num
  · show ((100 : ℚ) : ℝ) + max 15 (((5 : ℚ) : ℝ) * 4)
        * Real.cos (atan2 (((0 : ℚ) : ℝ) - ((0 : ℚ) : ℝ)) (((100 : ℚ) : ℝ) - ((0 : ℚ) : ℝ))
            + radians 150)
      = 100 - 10 * Real.sqrt 3
    rw [hangle, zero_add, hL20, hcos]
    push_cast
    ring
  · show ((0 : ℚ) : ℝ) + max 15 (((5 : ℚ) : ℝ) * 4)
        * Real.sin (atan2 (((0 : ℚ) : ℝ) - ((0 : ℚ) : ℝ)) (((100 : ℚ) : ℝ) - ((0 : ℚ) : ℝ))
            + radians 150)
      = 10
    rw [hangle, zero_add, hL20, hsin]
    norm_num
  · show ((0 : ℚ) : ℝ) + max 15 (((5 : ℚ) : ℝ) * 4)
        * Real.sin (atan2 (((0 : ℚ) : ℝ) - ((0 : ℚ) : ℝ)) (((100 : ℚ) : ℝ) - ((0 : ℚ) : ℝ))
            - radians 150)
      = -10
    rw [hangle, zero_sub, Real.sin_neg, hL20, hsin]
    norm_num

end SupaDraw
